import Mathlib

/-
  A verification development for the linkerd2-proxy routing core.

  The Rust sources are shallowly embedded as executable Lean definitions:
  * `endpoint.rs`   — the outbound data model (`Addr`, `Settings`, `Metadata`,
                      `Endpoint`, `Logical`, `Concrete`) and the logical-key
                      destination priority chain;
  * `concrete.rs`   — the profile-concrete writer (`Update.setForward`,
                      `Update.setSplit`) and reader (`CService.pollReady`,
                      `CService.call`);
  * `pending.rs`    — the `Pending` making/made adapter;
  * `orig_proto_upgrade.rs` — the build-time HTTP/1 to HTTP/2 upgrade wrapper;
  * `client.rs`     — the HTTP client factory branch selection.

  Panics (`expect`, `unreachable!`, `panic!`) are modelled by `Option`
  results, with `none` standing for an abort.  Machine integers that matter
  (weights, `u32`) are modelled as `Nat` (they are unsigned and no claim
  involves overflow).  The watch broadcast channel is modelled by a boolean
  `readersAlive`: broadcasting succeeds exactly when some reader is alive.
-/

namespace Linkerd

/-- DNS name + port, kept abstract as a string. -/
abbrev NameAddr := String

/-- A socket address, kept abstract. -/
abbrev SocketAddr := Nat

/-- `Addr` from `linkerd2_addr`: a name address or a socket address. -/
inductive Addr : Type
  | name (a : NameAddr)
  | sock (a : SocketAddr)
deriving DecidableEq

/-- `http::Settings` per-endpoint protocol settings (fields in source order:
`keep_alive`, `wants_h1_upgrade`, `was_absolute_form`). -/
inductive Settings : Type
  | http1 (keepAlive wantsH1Upgrade wasAbsoluteForm : Bool)
  | http2
  | notHttp
deriving DecidableEq

/-- Modelled from the spec: `Settings::was_absolute_form` (the settings
module itself is not among the provided sources); it reads the
`was_absolute_form` flag of `Http1` settings and is `false` otherwise. -/
def Settings.wasAbsoluteForm : Settings → Bool
  | .http1 _ _ w => w
  | _ => false

/-- `ProtocolHint` from the discovery metadata. -/
inductive ProtocolHint : Type
  | unknown
  | h2
deriving DecidableEq

/-- Modelled from the spec: discovery-sourced `Metadata` (its source lives in
`api_resolve`, not among the provided files): a label map, an optional peer
identity, and a protocol hint.  Its derived equality compares all fields. -/
structure Metadata : Type where
  labels : List (String × String)
  protocolHint : ProtocolHint
  identity : Option String
deriving DecidableEq

/-- Reasons for an absent peer identity (`tls::ReasonForNoPeerName`). -/
inductive TlsReason : Type
  | notProvidedByServiceDiscovery
  | notHttpTls
  | loopback
deriving DecidableEq

/-- `Conditional` from the tls module: a value or a reason for its absence. -/
inductive Conditional (A R : Type) : Type
  | some (a : A)
  | none (r : R)
deriving DecidableEq

/-- Peer identity of an endpoint. -/
abbrev PeerIdentity := Conditional String TlsReason

/-- `Concrete` target: destination address plus protocol settings. -/
structure Concrete : Type where
  dst : Addr
  settings : Settings
deriving DecidableEq

/-- `Logical` target: destination address plus protocol settings. -/
structure Logical : Type where
  dst : Addr
  settings : Settings
deriving DecidableEq

/-- `Endpoint` from `endpoint.rs`.  The Rust struct derives `PartialEq`/`Eq`,
so its equality — like this structure's — compares all four fields,
`metadata` included. -/
structure Endpoint : Type where
  addr : SocketAddr
  identity : PeerIdentity
  concrete : Concrete
  metadata : Metadata
deriving DecidableEq

/-- The manual `Hash` impl for `Endpoint` feeds the hasher `addr`,
`identity` and `concrete`, in that order, and ignores `metadata`.  Any
hasher's output is a function of this feed. -/
def Endpoint.hashFeed (e : Endpoint) : SocketAddr × PeerIdentity × Concrete :=
  (e.addr, e.identity, e.concrete)

/-- `Endpoint::can_use_orig_proto`, `endpoint.rs` lines 52-71.  `none`
models the `unreachable!` abort on `NotHttp` settings. -/
def Endpoint.canUseOrigProto (e : Endpoint) : Option Bool :=
  match e.metadata.protocolHint with
  | .unknown => some false
  | .h2 =>
    match e.concrete.settings with
    | .http2 => some false
    | .http1 _ wantsH1Upgrade _ => some (!wantsH1Upgrade)
    | .notHttp => none

/- ===== endpoint.rs: the logical-key destination priority chain ===== -/

/-- Modelled from the spec: the results of the three request-address
extractors (`http_request_l5d_override_dst_addr`,
`http_request_authority_addr`, `http_request_host_addr`; the app-core
helpers are not among the provided sources).  Each either yields an address
or fails. -/
structure ReqDstSources : Type where
  l5dOverride : Except Unit Addr
  authority : Except Unit Addr
  host : Except Unit Addr

/-- The destination computed by `LogicalOrFallbackTarget::key`,
`endpoint.rs` lines 229-250: dst-override, else authority, else host, else
the accepting socket's original target address. -/
def logicalDst (r : ReqDstSources) (targetAddr : SocketAddr) : Addr :=
  match r.l5dOverride with
  | .ok a => a
  | .error _ =>
    match r.authority with
    | .ok a => a
    | .error _ =>
      match r.host with
      | .ok a => a
      | .error _ => Addr.sock targetAddr

/-- The `Logical` key built by `LogicalOrFallbackTarget::key` (its settings
are derived from the request by `Settings::from_request`, abstracted here as
a parameter). -/
def logicalKey (r : ReqDstSources) (settings : Settings) (targetAddr : SocketAddr) : Logical :=
  { dst := logicalDst r targetAddr, settings := settings }

/- ===== concrete.rs: profile-concrete state ===== -/

/-- A single weighted address from a profile split. -/
structure WeightedAddr : Type where
  addr : NameAddr
  weight : Nat
deriving DecidableEq

/-- `Inner` from `concrete.rs`: the routing state.  The `WeightedIndex`
distribution is represented by the weight list it was built from, and the
`IndexMap` of services by an insertion-ordered association list. -/
inductive Inner (S : Type) : Type
  | forward (addr : Option NameAddr) (service : S)
  | split (distribution : List Nat) (services : List (NameAddr × S))
deriving DecidableEq

/-- `IndexMap::get` on the insertion-ordered association list. -/
def indexMapGet {S : Type} (m : List (NameAddr × S)) (k : NameAddr) : Option S :=
  (m.find? (fun p => p.1 == k)).map Prod.snd

/-- `IndexMap::insert`: an existing key keeps its position and gets the new
value; a new key is appended. -/
def indexMapInsert {S : Type} (m : List (NameAddr × S)) (k : NameAddr) (v : S) :
    List (NameAddr × S) :=
  if m.any (fun p => p.1 == k) then m.map (fun p => if p.1 == k then (k, v) else p)
  else m ++ [(k, v)]

/-- Modelled from the rand crate: `WeightedIndex::<u32>::new(ws)` fails
(`Err`) exactly when `ws` is empty or the total weight is zero (`u32`
weights are never negative); the caller's `expect` turns that into a panic.
The successful distribution is represented by its weight list. -/
def weightedIndexNew (ws : List Nat) : Option (List Nat) :=
  if ws.isEmpty || ws.sum == 0 then none else some ws

/-- The raised `error::LostService`. -/
inductive LostService : Type
  | lost
deriving DecidableEq

/-- `watch::Sender::broadcast` outcome: fails iff all readers were dropped. -/
def broadcast (readersAlive : Bool) : Except LostService Unit :=
  if readersAlive then .ok () else .error .lost

/-- The writer half (`Update`) of the profile-concrete pair: the original
target and the current routing state.  The `make` and `with_addr`
collaborators are passed to the operations as functions. -/
structure Update (T S : Type) : Type where
  target : T
  routes : Inner S
deriving DecidableEq

/-- The writer state built by `concrete::forward` (lines 12-36): routing
starts as `Forward { addr: None, service: make(target) }`. -/
def initUpdate {T S : Type} (make : T → S) (target : T) : Update T S :=
  { target := target, routes := .forward none (make target) }

/-- `Update::set_forward`, `concrete.rs` lines 146-160.  Already
`Forward{addr: None}` is a no-op; otherwise the service is rebuilt from the
original target, the local `routes` is assigned, and the new state is
broadcast. -/
def Update.setForward {T S : Type} (make : T → S) (readersAlive : Bool)
    (u : Update T S) : Except LostService Unit × Update T S :=
  match u.routes with
  | .forward Option.none _ => (.ok (), u)
  | _ =>
    let routes := Inner.forward none (make u.target)
    (broadcast readersAlive, { u with routes := routes })

/-- `Update::set_split`, `concrete.rs` lines 162-228.  `none` models the
`expect("invalid weight distribution")` panic (and the unreachable
`pop().unwrap()` on an empty vector).  From a `Forward` state with exactly
one address: a no-op if that address is already set, else a new `Forward`.
Otherwise a `Split` is built; from a prior `Split`, services for surviving
addresses are reused (cloned), and only unknown addresses are built afresh.
The local `routes` is assigned before broadcasting. -/
def Update.setSplit {T S : Type} (make : T → S) (withAddr : T → NameAddr → T)
    (readersAlive : Bool) (addrs : List WeightedAddr) (u : Update T S) :
    Option (Except LostService Unit × Update T S) :=
  match u.routes with
  | .forward addr _ =>
    if addrs.length = 1 then
      match addrs.getLast? with
      | Option.none => none
      | Option.some wa =>
        if addr = some wa.addr then some (.ok (), u)
        else
          let service := make (withAddr u.target wa.addr)
          let routes := Inner.forward (some wa.addr) service
          some (broadcast readersAlive, { u with routes := routes })
    else
      match weightedIndexNew (addrs.map WeightedAddr.weight) with
      | Option.none => none
      | Option.some dist =>
        let services := addrs.foldl
          (fun m wa => indexMapInsert m wa.addr (make (withAddr u.target wa.addr))) []
        some (broadcast readersAlive, { u with routes := Inner.split dist services })
  | .split _ prior =>
    match weightedIndexNew (addrs.map WeightedAddr.weight) with
    | Option.none => none
    | Option.some dist =>
      let services := addrs.foldl
        (fun m wa =>
          match indexMapGet prior wa.addr with
          | Option.none => indexMapInsert m wa.addr (make (withAddr u.target wa.addr))
          | Option.some s => indexMapInsert m wa.addr s) []
      some (broadcast readersAlive, { u with routes := Inner.split dist services })

/-- An operation on the writer side. -/
inductive ProfileOp : Type
  | setForwardOp
  | setSplitOp (addrs : List WeightedAddr)

/-- Apply one writer operation, keeping only the resulting state
(`none` = the operation panicked). -/
def applyProfileOp {T S : Type} (make : T → S) (withAddr : T → NameAddr → T)
    (readersAlive : Bool) (u : Update T S) : ProfileOp → Option (Update T S)
  | .setForwardOp => some (u.setForward make readersAlive).2
  | .setSplitOp addrs => (u.setSplit make withAddr readersAlive addrs).map Prod.snd

/-- Run a sequence of writer operations from a state; `none` if any
operation panicked. -/
def runProfileOps {T S : Type} (make : T → S) (withAddr : T → NameAddr → T)
    (readersAlive : Bool) : Update T S → List ProfileOp → Option (Update T S)
  | u, [] => some u
  | u, op :: ops =>
    match applyProfileOp make withAddr readersAlive u op with
    | Option.none => none
    | Option.some u2 => runProfileOps make withAddr readersAlive u2 ops

/-- The number of services when the state is a `Split`. -/
def splitLen {S : Type} : Inner S → Option Nat
  | .split _ services => some services.length
  | .forward _ _ => none

/-- Whether the state is a `Forward`. -/
def Inner.isForward {S : Type} : Inner S → Bool
  | .forward _ _ => true
  | .split _ _ => false

/-- Whether the state is `Forward { addr: None }` (the `set_forward`
no-op condition). -/
def Inner.isForwardNone {S : Type} : Inner S → Bool
  | .forward Option.none _ => true
  | _ => false

/-- The `set_split` no-op condition: a single address already adopted by a
`Forward` state. -/
def setSplitNoOp {T S : Type} (addrs : List WeightedAddr) (u : Update T S) : Bool :=
  match u.routes, addrs with
  | .forward (Option.some a) _, [wa] => a == wa.addr
  | _, _ => false

/- ===== concrete.rs: the reader Service ===== -/

/-- The result of one `poll_ready` on an inner tower service. -/
inductive SvcPoll : Type
  | ready
  | notReady
  | err
deriving DecidableEq

/-- The outcome of the split polling loop: the index found ready, or not
ready after all draws, or an inner error propagated by the `?`. -/
inductive SplitRes : Type
  | readyAt (idx : Nat)
  | notReady
  | err
deriving DecidableEq

/-- The `for _ in 0..services.len()` loop of `Service::poll_ready`
(`concrete.rs` lines 101-110), with `remaining` iterations left and `draw`
draws already taken.  Each iteration samples `sample draw` from the
distribution, polls that backend, and on readiness stops with its index.
The second component is the trace of sampled indices actually polled;
`none` models the `expect("split index out of range")` panic. -/
def splitGo {S : Type} (services : List (NameAddr × S)) (poll : S → SvcPoll)
    (sample : Nat → Nat) : Nat → Nat → Option (SplitRes × List Nat)
  | 0, _ => some (.notReady, [])
  | remaining + 1, draw =>
    let idx := sample draw
    match services[idx]? with
    | Option.none => none
    | Option.some p =>
      match poll p.2 with
      | .err => some (.err, [idx])
      | .ready => some (.readyAt idx, [idx])
      | .notReady =>
        (splitGo services poll sample remaining (draw + 1)).map
          (fun q => (q.1, idx :: q.2))

/-- The backend poll outcome of the draw numbered `k`: the result of
polling the service at index `sample k` (out of range counts as the
panic-adjacent `err`; it never occurs for a real distribution). -/
def sampledPoll {S : Type} (services : List (NameAddr × S)) (poll : S → SvcPoll)
    (sample : Nat → Nat) (k : Nat) : SvcPoll :=
  match services[sample k]? with
  | Option.none => .err
  | Option.some p => poll p.2

/-- The reader half (`Service`) of the profile-concrete pair: the local
routing state and the stashed split index.  The rng is modelled by the
`sample` draw stream passed to `pollReady`. -/
structure CService (S : Type) : Type where
  routes : Inner S
  nextSplitIndex : Option Nat
deriving DecidableEq

/-- The overall outcome of `Service::poll_ready`. -/
inductive PollRes : Type
  | ready
  | notReady
  | err
deriving DecidableEq

/-- `Service::poll_ready`, `concrete.rs` lines 75-116.  First the update
channel is drained (`upd` is the latest broadcast state still pending, if
any); receiving a state replaces `routes` and clears the stash.  A
`Forward` polls its sole service.  A `Split` runs the sampling loop; a
sampled-ready backend's index is stashed.  `none` models the index-range
panic. -/
def CService.pollReady {S : Type} (poll : S → SvcPoll) (sample : Nat → Nat)
    (upd : Option (Inner S)) (c : CService S) : Option (PollRes × CService S) :=
  let c :=
    match upd with
    | Option.none => c
    | Option.some routes => { routes := routes, nextSplitIndex := none }
  match c.routes with
  | .forward _ service =>
    match poll service with
    | .ready => some (.ready, c)
    | .notReady => some (.notReady, c)
    | .err => some (.err, c)
  | .split _ services =>
    match splitGo services poll sample services.length 0 with
    | Option.none => none
    | Option.some (.readyAt idx, _) =>
      some (.ready, { c with nextSplitIndex := some idx })
    | Option.some (.notReady, _) => some (.notReady, c)
    | Option.some (.err, _) => some (.err, c)

/-- `Service::call`, `concrete.rs` lines 118-137: a `Forward` dispatches to
its sole service; a `Split` takes (consumes) the stashed index and
dispatches to that backend.  `none` models the
`expect("concrete router is not ready")` and index-range panics.  The
returned service is the dispatch target. -/
def CService.call {S : Type} (c : CService S) : Option (S × CService S) :=
  match c.routes with
  | .forward _ service => some (service, c)
  | .split _ services =>
    match c.nextSplitIndex with
    | Option.none => none
    | Option.some idx =>
      match services[idx]? with
      | Option.none => none
      | Option.some p => some (p.2, { c with nextSplitIndex := none })

/- ===== pending.rs ===== -/

/-- One poll of the constructor future: still pending (with its next state),
finished with a service, or failed. -/
inductive FutOut (F S : Type) : Type
  | pend (f : F)
  | done (s : S)
  | err

/-- `Pending` from `pending.rs`: `Making` while the constructor future is in
progress, `Made` once the service is produced. -/
inductive Pending (F S : Type) : Type
  | making (f : F)
  | made (s : S)

/-- Whether a `Pending` has reached the `Made` state. -/
def Pending.isMade {F S : Type} : Pending F S → Bool
  | .made _ => true
  | .making _ => false

/-- `Pending::poll_ready`, `pending.rs` lines 62-72.  In `Making` the future
is polled: pending or failing leaves the state `Making` (the `try_ready!`
early-returns before the assignment); completion transitions to `Made` and
loops into polling the made service.  In `Made` the service is polled. -/
def Pending.pollReady {F S : Type} (pollF : F → FutOut F S) (pollS : S → SvcPoll) :
    Pending F S → PollRes × Pending F S
  | .making f =>
    match pollF f with
    | .pend f2 => (.notReady, .making f2)
    | .err => (.err, .making f)
    | .done s =>
      match pollS s with
      | .ready => (.ready, .made s)
      | .notReady => (.notReady, .made s)
      | .err => (.err, .made s)
  | .made s =>
    match pollS s with
    | .ready => (.ready, .made s)
    | .notReady => (.notReady, .made s)
    | .err => (.err, .made s)

/-- `Pending::call`, `pending.rs` lines 74-80: dispatches on the made
service; `none` models the `panic!("pending not ready yet")` in `Making`. -/
def Pending.call {F S : Type} : Pending F S → Option S
  | .making _ => none
  | .made s => some s

/-- An operation driven on a `Pending` handle. -/
inductive PendOp : Type
  | pollOp
  | callOp

/-- Run a sequence of operations on a `Pending`; `call` never changes the
making/made state. -/
def runPendingOps {F S : Type} (pollF : F → FutOut F S) (pollS : S → SvcPoll) :
    Pending F S → List PendOp → Pending F S
  | p, [] => p
  | p, .pollOp :: ops => runPendingOps pollF pollS (Pending.pollReady pollF pollS p).2 ops
  | p, .callOp :: ops => runPendingOps pollF pollS p ops

/- ===== orig_proto_upgrade.rs ===== -/

/-- `svc::Either`. -/
inductive Either (A B : Type) : Type
  | a (x : A)
  | b (y : B)
deriving DecidableEq

/-- `orig_proto::Upgrade`: the wrapped inner service plus the
`absolute_form` flag assigned after `Upgrade::new`. -/
structure Upgrade (S : Type) : Type where
  inner : S
  absoluteForm : Bool
deriving DecidableEq

/-- `MakeSvc::make` from `orig_proto_upgrade.rs` lines 43-60.  If the
endpoint cannot use orig-proto, the inner service is built from the
endpoint unchanged (`Either::B`).  Otherwise `was_absolute` is read, the
settings are forced to `Http2`, the inner service is built from the
modified endpoint, and it is wrapped in an `Upgrade` carrying
`was_absolute` (`Either::A`).  `none` propagates the `can_use_orig_proto`
abort on `NotHttp`. -/
def origProtoMake {S : Type} (innerMake : Endpoint → S) (e : Endpoint) :
    Option (Either (Upgrade S) S) :=
  match e.canUseOrigProto with
  | Option.none => none
  | Option.some false => some (.b (innerMake e))
  | Option.some true =>
    let wasAbsolute := e.concrete.settings.wasAbsoluteForm
    let e2 := { e with concrete := { e.concrete with settings := Settings.http2 } }
    some (.a { inner := innerMake e2, absoluteForm := wasAbsolute })

/- ===== client.rs ===== -/

/-- The client the factory builds: an HTTP/1 hyper client (recording the
`keep_alive` flag, the always-false `set_host`, and the absolute-form flag
given to the connector) or an HTTP/2 connect future. -/
inductive ClientKind : Type
  | http1Client (keepAlive setHost absoluteForm : Bool)
  | http2Client
deriving DecidableEq

/-- `MakeClient::call`, `client.rs` lines 127-157: `Http1` settings build a
hyper HTTP/1 client honouring `keep_alive` with `set_host(false)` and the
endpoint's absolute-form flag; `Http2` starts an HTTP/2 connect; `NotHttp`
hits `unreachable!`, modelled by `none`. -/
def makeClientCall (s : Settings) : Option ClientKind :=
  match s with
  | .http1 keepAlive _ wasAbsoluteForm =>
    some (.http1Client keepAlive false wasAbsoluteForm)
  | .http2 => some .http2Client
  | .notHttp => none

/- ===================== Theorems ===================== -/

/-- C6: the logical key's dst comes from the l5d-dst-override header when it
yields an address (whatever the authority and host yield); otherwise from
the authority, then the Host header, and only when all three fail from the
accepting socket's original target address. -/
theorem logical_key_dst_priority (a b c : Addr) (t : SocketAddr)
    (y z : Except Unit Addr) (st : Settings) :
    (logicalKey ⟨.ok a, y, z⟩ st t).dst = a ∧
    logicalDst ⟨.ok a, y, z⟩ t = a ∧
    logicalDst ⟨.error (), .ok b, z⟩ t = b ∧
    logicalDst ⟨.error (), .error (), .ok c⟩ t = c ∧
    logicalDst ⟨.error (), .error (), .error ()⟩ t = Addr.sock t :=
  ⟨rfl, rfl, rfl, rfl, rfl⟩

/-- C8: for Http1 or Http2 settings the client factory's call never reaches
its error branch — it builds an HTTP/1 hyper client (honouring keep-alive,
with set_host disabled and the endpoint's absolute-form flag) or an HTTP/2
connect future; a NotHttp target aborts. -/
theorem make_client_http_only (s : Settings) (h : s ≠ Settings.notHttp) :
    (makeClientCall s).isSome = true ∧
    (∀ ka wu wa, s = Settings.http1 ka wu wa →
      makeClientCall s = some (ClientKind.http1Client ka false wa)) ∧
    (s = Settings.http2 → makeClientCall s = some ClientKind.http2Client) ∧
    makeClientCall Settings.notHttp = none := by
  cases s with
  | http1 ka wu wa =>
    refine ⟨rfl, ?_, ?_, rfl⟩
    · intro ka2 wu2 wa2 he
      cases he
      rfl
    · intro he
      exact absurd he (by simp)
  | http2 =>
    refine ⟨rfl, ?_, fun _ => rfl, rfl⟩
    intro ka2 wu2 wa2 he
    exact absurd he (by simp)
  | notHttp => exact absurd rfl h

/-- Witness for C8 at Http1 settings. -/
theorem make_client_http_only_witness :
    makeClientCall (Settings.http1 true false true) =
      some (ClientKind.http1Client true false true) :=
  ((make_client_http_only (Settings.http1 true false true) (by simp)).2.1) true false true rfl

/-- C2 counterexample: two endpoints agreeing on addr, identity and
concrete but differing in metadata have the same hash feed yet are NOT
equal — the derived equality on `Endpoint` compares the metadata field. -/
theorem endpoint_eq_metadata_counterexample :
    Endpoint.hashFeed
        ⟨0, Conditional.none TlsReason.notProvidedByServiceDiscovery,
          ⟨Addr.name "svc", Settings.http2⟩, ⟨[], ProtocolHint.unknown, none⟩⟩ =
      Endpoint.hashFeed
        ⟨0, Conditional.none TlsReason.notProvidedByServiceDiscovery,
          ⟨Addr.name "svc", Settings.http2⟩, ⟨[("app", "web")], ProtocolHint.h2, none⟩⟩ ∧
    (⟨0, Conditional.none TlsReason.notProvidedByServiceDiscovery,
        ⟨Addr.name "svc", Settings.http2⟩, ⟨[], ProtocolHint.unknown, none⟩⟩ : Endpoint) ≠
      ⟨0, Conditional.none TlsReason.notProvidedByServiceDiscovery,
        ⟨Addr.name "svc", Settings.http2⟩, ⟨[("app", "web")], ProtocolHint.h2, none⟩⟩ := by
  refine ⟨rfl, ?_⟩
  decide

/-- C2 (amended): for endpoints agreeing on addr, identity and concrete,
the data fed to the hasher is identical (hashing ignores metadata), but the
derived equality holds exactly when the metadata also agree. -/
theorem endpoint_hash_ignores_metadata (e1 e2 : Endpoint)
    (ha : e1.addr = e2.addr) (hi : e1.identity = e2.identity)
    (hc : e1.concrete = e2.concrete) :
    e1.hashFeed = e2.hashFeed ∧ (e1 = e2 ↔ e1.metadata = e2.metadata) := by
  cases e1
  cases e2
  simp_all [Endpoint.hashFeed, Endpoint.mk.injEq]

/-- Witness for the amended C2 theorem. -/
theorem endpoint_hash_ignores_metadata_witness :
    Endpoint.hashFeed
        ⟨7, Conditional.some "id", ⟨Addr.sock 7, Settings.http2⟩,
          ⟨[], ProtocolHint.unknown, none⟩⟩ =
      Endpoint.hashFeed
        ⟨7, Conditional.some "id", ⟨Addr.sock 7, Settings.http2⟩,
          ⟨[("a", "b")], ProtocolHint.h2, some "id"⟩⟩ :=
  (endpoint_hash_ignores_metadata _ _ rfl rfl rfl).1

/-- C5: for an endpoint whose settings are not NotHttp, the orig-proto
build wrapper yields Either::A(Upgrade) iff can_use_orig_proto holds, i.e.
iff the protocol hint is known and the settings are Http1 without a
requested h1 upgrade; when it wraps, the inner service is built from the
endpoint with settings forced to Http2 and the adapter's absolute_form is
the endpoint's original was_absolute_form; otherwise the inner service is
built from the unchanged endpoint and returned as Either::B. -/
theorem orig_proto_make_spec {S : Type} (innerMake : Endpoint → S) (e : Endpoint)
    (h : e.concrete.settings ≠ Settings.notHttp) :
    (e.canUseOrigProto = some true ↔
      (e.metadata.protocolHint ≠ ProtocolHint.unknown ∧
        ∃ ka wa, e.concrete.settings = Settings.http1 ka false wa)) ∧
    (e.canUseOrigProto = some true →
      origProtoMake innerMake e =
        some (Either.a
          { inner := innerMake { e with concrete := { e.concrete with settings := Settings.http2 } },
            absoluteForm := e.concrete.settings.wasAbsoluteForm })) ∧
    (e.canUseOrigProto = some false →
      origProtoMake innerMake e = some (Either.b (innerMake e))) ∧
    (e.canUseOrigProto).isSome = true := by
  refine ⟨⟨?_, ?_⟩, ?_, ?_, ?_⟩
  · intro hcu
    cases hph : e.metadata.protocolHint with
    | unknown => simp [Endpoint.canUseOrigProto, hph] at hcu
    | h2 =>
      cases hst : e.concrete.settings with
      | http1 ka wu wa =>
        simp [Endpoint.canUseOrigProto, hph, hst] at hcu
        exact ⟨by simp [hph], ka, wa, by simp [hst, hcu]⟩
      | http2 => simp [Endpoint.canUseOrigProto, hph, hst] at hcu
      | notHttp => exact absurd hst h
  · rintro ⟨hph, ka, wa, hst⟩
    cases hph2 : e.metadata.protocolHint with
    | unknown => exact absurd hph2 hph
    | h2 => simp [Endpoint.canUseOrigProto, hph2, hst]
  · intro hcu
    simp [origProtoMake, hcu]
  · intro hcu
    simp [origProtoMake, hcu]
  · cases hph : e.metadata.protocolHint with
    | unknown => simp [Endpoint.canUseOrigProto, hph]
    | h2 =>
      cases hst : e.concrete.settings with
      | http1 ka wu wa => simp [Endpoint.canUseOrigProto, hph, hst]
      | http2 => simp [Endpoint.canUseOrigProto, hph, hst]
      | notHttp => exact absurd hst h

/-- Witness for C5: an h2-hinted Http1 endpoint is wrapped with the
original absolute-form flag and Http2-forced inner settings. -/
theorem orig_proto_make_spec_witness :
    origProtoMake (fun e => e)
        ⟨3, Conditional.some "peer", ⟨Addr.name "svc", Settings.http1 true false true⟩,
          ⟨[], ProtocolHint.h2, some "peer"⟩⟩ =
      some (Either.a
        { inner := ⟨3, Conditional.some "peer", ⟨Addr.name "svc", Settings.http2⟩,
            ⟨[], ProtocolHint.h2, some "peer"⟩⟩,
          absoluteForm := true }) :=
  ((orig_proto_make_spec (fun e => e) _ (by simp)).2.1) rfl

/-- C7: once a Pending has transitioned to Made it never returns to Making
under any sequence of poll_ready and call operations, and a call issued
while still Making is rejected (it aborts rather than dispatching). -/
theorem pending_made_monotone {F S : Type} (pollF : F → FutOut F S)
    (pollS : S → SvcPoll) (p : Pending F S) (ops : List PendOp)
    (h : p.isMade = true) :
    (runPendingOps pollF pollS p ops).isMade = true ∧
    (∀ f : F, (Pending.making f : Pending F S).call = none) := by
  refine ⟨?_, fun f => rfl⟩
  induction ops generalizing p with
  | nil => exact h
  | cons op ops ih =>
    cases op with
    | pollOp =>
      refine ih _ ?_
      cases p with
      | made s => cases hps : pollS s <;> simp [Pending.pollReady, Pending.isMade, hps]
      | making f => simp [Pending.isMade] at h
    | callOp => exact ih _ h

/-- Witness for C7 on a made service driven through polls and calls. -/
theorem pending_made_monotone_witness :
    (runPendingOps (fun _ : Unit => FutOut.done ()) (fun _ : Unit => SvcPoll.ready)
        (Pending.made ()) [PendOp.pollOp, PendOp.callOp, PendOp.pollOp]).isMade = true :=
  (pending_made_monotone (fun _ : Unit => FutOut.done ()) (fun _ : Unit => SvcPoll.ready)
    (Pending.made ()) [PendOp.pollOp, PendOp.callOp, PendOp.pollOp] rfl).1

/-- C1 counterexample: from a Split state over a and b, set_split with the
single address c and a successful broadcast returns Ok but leaves a
one-element Split — not the Forward state the claim demands. -/
theorem set_split_single_from_split_counterexample :
    (Update.setSplit (fun t : String => t) (fun _ a => a) true [⟨"c", 1⟩]
        ⟨"orig", Inner.split [1, 1] [("a", "a"), ("b", "b")]⟩).map
      (fun p => (p.1.isOk, p.2.routes.isForward, p.2.routes)) =
    some (true, false, Inner.split [1] [("c", "c")]) := by
  rfl

/-- C1 (amended): for an Update currently in a Forward state, set_split
with a single address is a no-op returning Ok when that address is already
adopted, and otherwise (with a successful broadcast) adopts
Forward with the new address and a service made from the target rebased to
it.  (From a Split state, set_split with a single address instead builds a
one-element Split.) -/
theorem set_split_single_from_forward {T S : Type} (make : T → S)
    (withAddr : T → NameAddr → T) (ra : Bool) (u : Update T S)
    (a0 : Option NameAddr) (s0 : S) (wa : WeightedAddr)
    (h : u.routes = Inner.forward a0 s0) :
    (a0 = some wa.addr → u.setSplit make withAddr ra [wa] = some (.ok (), u)) ∧
    (a0 ≠ some wa.addr → ra = true →
      u.setSplit make withAddr ra [wa] =
        some (.ok (),
          { u with routes :=
              Inner.forward (some wa.addr) (make (withAddr u.target wa.addr)) })) := by
  constructor
  · intro ha
    simp [Update.setSplit, h, ha]
  · intro ha hra
    subst hra
    simp [Update.setSplit, h, ha, broadcast]

/-- Witness for the amended C1 theorem: the idempotent no-op case. -/
theorem set_split_single_from_forward_witness :
    Update.setSplit (fun t : String => t) (fun _ a => a) true [⟨"x", 5⟩]
        ⟨"t", Inner.forward (some "x") "x"⟩ =
      some (.ok (), ⟨"t", Inner.forward (some "x") "x"⟩) :=
  (set_split_single_from_forward (fun t : String => t) (fun _ a => a) true
    ⟨"t", Inner.forward (some "x") "x"⟩ (some "x") "x" ⟨"x", 5⟩ rfl).1 rfl

/-- C3 (code bug): from the initial Forward state, the operation sequence
set_split over two addresses followed by set_split over one address reaches
a Split whose services map has exactly one entry — violating the
services.len() >= 2 invariant that Service::poll_ready debug-asserts. -/
theorem split_singleton_reachable :
    (runProfileOps (fun t : String => t) (fun _ a => a) true
        (initUpdate (fun t : String => t) "svc")
        [ProfileOp.setSplitOp [⟨"a", 1⟩, ⟨"b", 1⟩],
          ProfileOp.setSplitOp [⟨"a", 1⟩]]).bind
      (fun u => splitLen u.routes) = some 1 := by
  rfl

/-- C9: the writer assigns its routes field to the newly computed state
before broadcasting, so the stored state after a call is the same whether
or not any reader is still alive; and whenever the call is not the
idempotent no-op, a call with all readers dropped returns Err(LostService)
— the update is not rolled back. -/
theorem writer_state_survives_lost_readers {T S : Type} (make : T → S)
    (withAddr : T → NameAddr → T) (u : Update T S) (addrs : List WeightedAddr) :
    ((u.setForward make false).2 = (u.setForward make true).2) ∧
    (u.routes.isForwardNone = false →
      (u.setForward make false).1 = Except.error LostService.lost) ∧
    ((u.setSplit make withAddr false addrs).map Prod.snd =
      (u.setSplit make withAddr true addrs).map Prod.snd) ∧
    (setSplitNoOp addrs u = false →
      ∀ r u2, u.setSplit make withAddr false addrs = some (r, u2) →
        r = Except.error LostService.lost) := by
  refine ⟨?_, ?_, ?_, ?_⟩
  · cases hu : u.routes with
    | forward a s =>
      cases a with
      | none => simp [Update.setForward, hu]
      | some a0 => simp [Update.setForward, hu]
    | split d svcs => simp [Update.setForward, hu]
  · intro hno
    cases hu : u.routes with
    | forward a s =>
      cases a with
      | none => simp [Inner.isForwardNone, hu] at hno
      | some a0 => simp [Update.setForward, hu, broadcast]
    | split d svcs => simp [Update.setForward, hu, broadcast]
  · cases hu : u.routes with
    | forward a s =>
      by_cases hl : addrs.length = 1
      · obtain ⟨w0, rfl⟩ := List.length_eq_one.mp hl
        by_cases ha : a = some w0.addr
        · simp [Update.setSplit, hu, ha]
        · simp [Update.setSplit, hu, ha]
      · cases hw : weightedIndexNew (addrs.map WeightedAddr.weight) with
        | none => simp [Update.setSplit, hu, hl, hw]
        | some d => simp [Update.setSplit, hu, hl, hw]
    | split d svcs =>
      cases hw : weightedIndexNew (addrs.map WeightedAddr.weight) with
      | none => simp [Update.setSplit, hu, hw]
      | some d2 => simp [Update.setSplit, hu, hw]
  · intro hno r u2 hcall
    cases hu : u.routes with
    | forward a s =>
      by_cases hl : addrs.length = 1
      · obtain ⟨w0, rfl⟩ := List.length_eq_one.mp hl
        by_cases ha : a = some w0.addr
        · simp [setSplitNoOp, hu, ha] at hno
        · simp [Update.setSplit, hu, ha, broadcast] at hcall
          exact hcall.1.symm
      · cases hw : weightedIndexNew (addrs.map WeightedAddr.weight) with
        | none => simp [Update.setSplit, hu, hl, hw] at hcall
        | some d =>
          simp [Update.setSplit, hu, hl, hw, broadcast] at hcall
          exact hcall.1.symm
    | split d svcs =>
      cases hw : weightedIndexNew (addrs.map WeightedAddr.weight) with
      | none => simp [Update.setSplit, hu, hw] at hcall
      | some d2 =>
        simp [Update.setSplit, hu, hw, broadcast] at hcall
        exact hcall.1.symm

/-- Witness for C9: a forwarding state with a profile override loses its
readers and still reports the error while keeping the new state. -/
theorem writer_state_survives_lost_readers_witness :
    (Update.setForward (fun t : String => t) false
        ⟨"t", Inner.forward (some "x") "x"⟩).1 = Except.error LostService.lost :=
  (writer_state_survives_lost_readers (fun t : String => t) (fun _ a => a)
    ⟨"t", Inner.forward (some "x") "x"⟩ []).2.1 rfl

/-- C10: when set_split reaches the weighted-index construction (the state
is a Split, or it is a Forward and the address list is not a singleton) and
the list is empty or all weights are zero, the call panics via the expect
on WeightedIndex::new instead of returning an error value. -/
theorem set_split_panics_on_degenerate_weights {T S : Type} (make : T → S)
    (withAddr : T → NameAddr → T) (ra : Bool) (addrs : List WeightedAddr)
    (u : Update T S)
    (hreach : u.routes.isForward = false ∨
      (u.routes.isForward = true ∧ addrs.length ≠ 1))
    (hbad : addrs = [] ∨ ∀ wa ∈ addrs, wa.weight = 0) :
    u.setSplit make withAddr ra addrs = none := by
  have hw : weightedIndexNew (addrs.map WeightedAddr.weight) = none := by
    cases hbad with
    | inl he => subst he; rfl
    | inr hz =>
      have hsum : (addrs.map WeightedAddr.weight).sum = 0 := by
        refine List.sum_eq_zero ?_
        intro x hx
        obtain ⟨wa, hwa, rfl⟩ := List.mem_map.mp hx
        exact hz wa hwa
      simp [weightedIndexNew, hsum]
  cases hu : u.routes with
  | forward a s =>
    cases hreach with
    | inl hfwd => simp [Inner.isForward, hu] at hfwd
    | inr hpair => simp [Update.setSplit, hu, hpair.2, hw]
  | split d svcs => simp [Update.setSplit, hu, hw]

/-- Witness for C10: set_split on a Split state with an empty address list
panics. -/
theorem set_split_panics_on_degenerate_weights_witness :
    Update.setSplit (fun t : String => t) (fun _ a => a) true []
        ⟨"t", Inner.split [1, 1] [("a", "a"), ("b", "b")]⟩ = none :=
  set_split_panics_on_degenerate_weights (fun t : String => t) (fun _ a => a) true []
    ⟨"t", Inner.split [1, 1] [("a", "a"), ("b", "b")]⟩ (Or.inl rfl) (Or.inl rfl)

/-- The split polling loop polls at most as many backends as it has
iterations left. -/
theorem splitGo_trace_length_le {S : Type} (svcs : List (NameAddr × S))
    (poll : S → SvcPoll) (sample : Nat → Nat) :
    ∀ r k res tr, splitGo svcs poll sample r k = some (res, tr) →
      tr.length ≤ r := by
  intro r
  induction r with
  | zero =>
    intro k res tr h
    simp only [splitGo, Option.some_inj, Prod.mk.injEq] at h
    rw [← h.2]
    simp
  | succ r ih =>
    intro k res tr h
    simp only [splitGo] at h
    split at h
    · exact absurd h (by simp)
    · split at h
      · simp only [Option.some_inj, Prod.mk.injEq] at h
        rw [← h.2]
        simp
      · simp only [Option.some_inj, Prod.mk.injEq] at h
        rw [← h.2]
        simp
      · cases hrec : splitGo svcs poll sample r (k + 1) with
        | none => rw [hrec] at h; exact absurd h (by simp)
        | some q =>
          rw [hrec] at h
          simp only [Option.map, Option.some_inj, Prod.mk.injEq] at h
          rw [← h.2]
          have := ih (k + 1) q.1 q.2 (by rw [hrec])
          simpa using Nat.succ_le_succ this

/-- When every draw in the window polls not-ready, the loop exhausts all
its iterations, polls exactly that many backends, and reports NotReady. -/
theorem splitGo_all_notReady {S : Type} (svcs : List (NameAddr × S))
    (poll : S → SvcPoll) (sample : Nat → Nat) :
    ∀ r k, (∀ j < r, sampledPoll svcs poll sample (k + j) = SvcPoll.notReady) →
      (splitGo svcs poll sample r k).map (fun q => (q.1, q.2.length)) =
        some (SplitRes.notReady, r) := by
  intro r
  induction r with
  | zero => intro k _; rfl
  | succ r ih =>
    intro k h
    have h0 : sampledPoll svcs poll sample k = SvcPoll.notReady := h 0 (Nat.succ_pos r)
    cases hg : svcs[sample k]? with
    | none => simp [sampledPoll, hg] at h0
    | some p =>
      have hp : poll p.2 = SvcPoll.notReady := by simpa [sampledPoll, hg] using h0
      have hrec := ih (k + 1) (by
        intro j hj
        have := h (j + 1) (Nat.succ_lt_succ hj)
        have hk : k + (j + 1) = (k + 1) + j := by omega
        rwa [hk] at this)
      simp only [splitGo, hg, hp]
      cases hq : splitGo svcs poll sample r (k + 1) with
      | none => rw [hq] at hrec; exact absurd hrec (by simp)
      | some q =>
        rw [hq] at hrec
        simp only [Option.map_some', Option.some_inj, Prod.mk.injEq] at hrec
        simp [hrec.1, hrec.2]

/-- When the first non-not-ready draw in the window is ready, the loop
stops there, having polled one backend per draw up to and including it, and
reports that index ready. -/
theorem splitGo_first_ready {S : Type} (svcs : List (NameAddr × S))
    (poll : S → SvcPoll) (sample : Nat → Nat) :
    ∀ k0 r k, k0 < r →
      (∀ j < k0, sampledPoll svcs poll sample (k + j) = SvcPoll.notReady) →
      sampledPoll svcs poll sample (k + k0) = SvcPoll.ready →
      (splitGo svcs poll sample r k).map (fun q => (q.1, q.2.length)) =
        some (SplitRes.readyAt (sample (k + k0)), k0 + 1) := by
  intro k0
  induction k0 with
  | zero =>
    intro r k hr _ hready
    simp only [Nat.add_zero] at hready ⊢
    cases r with
    | zero => exact absurd hr (by simp)
    | succ r =>
      cases hg : svcs[sample k]? with
      | none => simp [sampledPoll, hg] at hready
      | some p =>
        have hp : poll p.2 = SvcPoll.ready := by simpa [sampledPoll, hg] using hready
        simp [splitGo, hg, hp]
  | succ k0 ih =>
    intro r k hr h hready
    cases r with
    | zero => exact absurd hr (by simp)
    | succ r =>
      have h0 : sampledPoll svcs poll sample k = SvcPoll.notReady := h 0 (Nat.succ_pos k0)
      cases hg : svcs[sample k]? with
      | none => simp [sampledPoll, hg] at h0
      | some p =>
        have hp : poll p.2 = SvcPoll.notReady := by simpa [sampledPoll, hg] using h0
        have hshift : (k + 1) + k0 = k + (k0 + 1) := by omega
        have hrec := ih r (k + 1) (Nat.lt_of_succ_lt_succ hr)
          (by
            intro j hj
            have := h (j + 1) (Nat.succ_lt_succ hj)
            have hk : k + (j + 1) = (k + 1) + j := by omega
            rwa [hk] at this)
          (by rwa [hshift])
        simp only [splitGo, hg, hp]
        cases hq : splitGo svcs poll sample r (k + 1) with
        | none => rw [hq] at hrec; exact absurd hrec (by simp)
        | some q =>
          rw [hq] at hrec
          simp only [Option.map_some', Option.some_inj, Prod.mk.injEq] at hrec
          rw [hshift] at hrec
          simp [hrec.1, hrec.2]

/-- C4: in a Split state with n backends, one poll_ready polls at most n
sampled backends; if the first draw that is not not-ready polls ready, that
index is stashed and poll_ready returns Ready, and the next call dispatches
to that backend, consuming the stash; if all n draws poll not-ready,
poll_ready returns NotReady having polled exactly n backends. -/
theorem split_poll_ready_then_call {S : Type} (poll : S → SvcPoll)
    (sample : Nat → Nat) (c : CService S) (w : List Nat)
    (svcs : List (NameAddr × S)) (hr : c.routes = Inner.split w svcs) :
    (∀ res tr, splitGo svcs poll sample svcs.length 0 = some (res, tr) →
      tr.length ≤ svcs.length) ∧
    ((∀ j < svcs.length, sampledPoll svcs poll sample j = SvcPoll.notReady) →
      (splitGo svcs poll sample svcs.length 0).map (fun q => (q.1, q.2.length)) =
          some (SplitRes.notReady, svcs.length) ∧
        c.pollReady poll sample none = some (PollRes.notReady, c)) ∧
    (∀ k0, k0 < svcs.length →
      (∀ j < k0, sampledPoll svcs poll sample j = SvcPoll.notReady) →
      sampledPoll svcs poll sample k0 = SvcPoll.ready →
      c.pollReady poll sample none =
          some (PollRes.ready, { c with nextSplitIndex := some (sample k0) }) ∧
      (∀ p, svcs[sample k0]? = some p →
        CService.call { c with nextSplitIndex := some (sample k0) } =
          some (p.2, { c with nextSplitIndex := none }))) := by
  refine ⟨fun res tr h => splitGo_trace_length_le svcs poll sample _ _ res tr h, ?_, ?_⟩
  · intro hall
    have hgo := splitGo_all_notReady svcs poll sample svcs.length 0 (by
      intro j hj
      have hz : (0 : Nat) + j = j := Nat.zero_add j
      rw [hz]
      exact hall j hj)
    refine ⟨hgo, ?_⟩
    cases hq : splitGo svcs poll sample svcs.length 0 with
    | none => rw [hq] at hgo; exact absurd hgo (by simp)
    | some q =>
      rw [hq] at hgo
      simp only [Option.map_some', Option.some_inj, Prod.mk.injEq] at hgo
      cases q with
      | mk q1 q2 =>
        simp only at hgo
        simp [CService.pollReady, hr, hq, hgo.1]
  · intro k0 hk0 hbefore hready
    have hgo := splitGo_first_ready svcs poll sample k0 svcs.length 0 hk0
      (by
        intro j hj
        have hz : (0 : Nat) + j = j := Nat.zero_add j
        rw [hz]
        exact hbefore j hj)
      (by
        have hz : (0 : Nat) + k0 = k0 := Nat.zero_add k0
        rwa [hz])
    have hz : (0 : Nat) + k0 = k0 := Nat.zero_add k0
    rw [hz] at hgo
    constructor
    · cases hq : splitGo svcs poll sample svcs.length 0 with
      | none => rw [hq] at hgo; exact absurd hgo (by simp)
      | some q =>
        rw [hq] at hgo
        simp only [Option.map_some', Option.some_inj, Prod.mk.injEq] at hgo
        cases q with
        | mk q1 q2 =>
          simp only at hgo
          simp [CService.pollReady, hr, hq, hgo.1]
    · intro p hp
      simp [CService.call, hr, hp]

/-- Witness for C4: two backends, the sampler always drawing index 1, whose
backend is ready on the first draw; poll_ready stashes 1 and the call
dispatches to it. -/
theorem split_poll_ready_then_call_witness :
    CService.pollReady (fun b : Bool => if b then SvcPoll.ready else SvcPoll.notReady)
        (fun _ => 1) none ⟨Inner.split [1, 1] [("a", false), ("b", true)], none⟩ =
      some (PollRes.ready, ⟨Inner.split [1, 1] [("a", false), ("b", true)], some 1⟩) ∧
    CService.call ⟨Inner.split [1, 1] [("a", false), ("b", true)], some 1⟩ =
      some (true, ⟨Inner.split [1, 1] [("a", false), ("b", true)], none⟩) := by
  have h := (split_poll_ready_then_call
      (fun b : Bool => if b then SvcPoll.ready else SvcPoll.notReady) (fun _ => 1)
      ⟨Inner.split [1, 1] [("a", false), ("b", true)], none⟩ [1, 1]
      [("a", false), ("b", true)] rfl).2.2 0 (by decide)
      (by intro j hj; exact absurd hj (Nat.not_lt_zero j)) (by decide)
  exact ⟨h.1, h.2 ("b", true) rfl⟩

end Linkerd
